import Mathlib

/-!
Shallow embedding of `src/ros2_test_cases_stats.py`, a CLI tool that pages
through a GraphQL issue search, retries failed HTTP calls, tallies assignee
counts per contributor, and prints a ranked report plus a summary percentage.

Conventions of the embedding:
* Python dicts keeping insertion order are modelled as association lists
  `List (String × Nat)`.
* The HTTP layer is modelled by a finite list of simulated attempt outcomes;
  the unbounded `while True` retry loop becomes structural recursion over that
  list, with a `stillRetrying` outcome meaning the loop has not yet terminated
  after consuming every simulated attempt.
* Python float arithmetic in the percentage lines is modelled with exact
  rationals (`ℚ`); Python's `ZeroDivisionError` is modelled with `Except`.
* Side effects (`print`, `time.sleep`) are modelled as an explicit event trace.
-/

namespace Ros2TestCasesStats

/-- One assignee/contributor login, as returned in `assignees.nodes[].login`. -/
abbrev Login := String

/-- A fetched issue node, restricted to the fields the aggregation loops read:
`issue['closed']` and `issue["assignees"]["nodes"]` (as the list of logins). -/
structure Issue where
  closed : Bool
  assignees : List Login
  deriving Repr, DecidableEq

/-- The `pageInfo` object of one search response:
`{hasNextPage, endCursor}`. -/
structure PageInfo where
  hasNextPage : Bool
  endCursor : String
  deriving Repr, DecidableEq

/-- One page of results, i.e. `response['data']['search']`:
its `nodes` and its `pageInfo`. -/
structure Page where
  nodes : List Issue
  pageInfo : PageInfo
  deriving Repr, DecidableEq

/-! ### The resilient query executor: `graphql_query` (lines 72–96)

`requests.post` either raises an exception or yields a response object with a
`status_code` and a JSON body.  The `except` clause of the source catches
exactly `(ValueError, urllib3.exceptions.InvalidChunkLength,
urllib3.exceptions.ProtocolError, requests.exceptions.ChunkedEncodingError)`;
every other exception propagates out of the function. -/

/-- Kind of exception raised by the transport (`requests.post`).  The four
named constructors are the exception classes listed in the source's `except`
tuple; `otherExn` stands for any exception class outside that tuple. -/
inductive ExnKind where
  | valueError
  | invalidChunkLength
  | protocolError
  | chunkedEncodingError
  | otherExn
  deriving Repr, DecidableEq

/-- Whether an exception is caught by the `except (...)` clause at line 81,
i.e. belongs to the recognized transient-fault set. -/
def recognizedTransient : ExnKind → Bool
  | .otherExn => false
  | _ => true

/-- An HTTP response object: its `status_code` and the value `.json()`
parses from its body (kept abstract in `α`). -/
structure HttpResponse (α : Type) where
  status_code : Nat
  body : α
  deriving Repr, DecidableEq

/-- Outcome of one `requests.post` call: either it raises, or it returns a
response object. -/
inductive Attempt (α : Type) where
  | raises (e : ExnKind)
  | responds (r : HttpResponse α)
  deriving Repr, DecidableEq

/-- Observable side effects of `graphql_query`: the two `print` calls and the
`time.sleep` calls, in the order they happen. -/
inductive Event where
  | logFailedHttp
  | logStatusCode (code : Nat)
  | sleepSeconds (n : Nat)
  deriving Repr, DecidableEq

/-- How `graphql_query` ends on a finite list of simulated attempts. -/
inductive QueryOutcome (α : Type) where
  | returns (body : α)
  | propagates (e : ExnKind)
  | stillRetrying
  deriving Repr, DecidableEq

/-- `graphql_query` (lines 72–96), run against a finite list of simulated
transport outcomes, one per iteration of the `while True` loop.  Returns the
final outcome together with the trace of prints and sleeps.  `stillRetrying`
means the simulated attempts ran out with the loop still going — the source
loop has no retry limit, so it would simply perform another attempt. -/
def graphql_query {α : Type} : List (Attempt α) → QueryOutcome α × List Event
  | [] => (.stillRetrying, [])
  | .raises e :: rest =>
    if recognizedTransient e then
      let next := graphql_query rest
      (next.1, .logFailedHttp :: .sleepSeconds 10 :: next.2)
    else
      (.propagates e, [])
  | .responds r :: rest =>
    if r.status_code ≠ 200 then
      let next := graphql_query rest
      (next.1, .logStatusCode r.status_code :: .sleepSeconds 60 :: next.2)
    else
      (.returns r.body, [])

/-- An attempt on which the loop keeps retrying rather than terminating:
a recognized transient exception, or a response whose status is not 200. -/
def retriable {α : Type} : Attempt α → Prop
  | .raises e => recognizedTransient e = true
  | .responds r => r.status_code ≠ 200

instance {α : Type} : DecidablePred (retriable (α := α)) := by
  intro a
  cases a with
  | raises e => exact inferInstanceAs (Decidable (recognizedTransient e = true))
  | responds r => exact inferInstanceAs (Decidable (r.status_code ≠ 200))

/-! ### The contributor tally (dict `contributors`) -/

/-- The body of the inner `for assignee in assignees` loop:
`if login not in contributors: contributors[login] = 0` then
`contributors[login] += 1`, on an insertion-ordered association list. -/
def tallyIncr (contributors : List (Login × Nat)) (login : Login) :
    List (Login × Nat) :=
  if contributors.any (fun p => p.1 = login) then
    contributors.map (fun p => if p.1 = login then (p.1, p.2 + 1) else p)
  else
    contributors ++ [(login, 0 + 1)]

/-- `contributors[login]` with a default of 0 for an absent key (used only to
state properties; the source never reads an absent key). -/
def tallyLookup (contributors : List (Login × Nat)) (login : Login) : Nat :=
  match contributors.find? (fun p => p.1 = login) with
  | some p => p.2
  | none => 0

/-! ### The two aggregation modes -/

/-- Mutable state of `query_repository_issues` (historical/closed-focus mode,
lines 140–183): the `contributors` dict and the two counters. -/
structure ClosedRun where
  contributors : List (Login × Nat)
  open_issues_count : Nat
  closed_issues_count : Nat
  deriving Repr, DecidableEq

/-- Initial state of `query_repository_issues`: empty dict, both counters 0. -/
def ClosedRun.init : ClosedRun :=
  { contributors := [], open_issues_count := 0, closed_issues_count := 0 }

/-- Body of `for issue in results['nodes']` in `query_repository_issues`
(lines 153–163): if the issue is closed, bump `closed_issues_count` and tally
each assignee; otherwise bump `open_issues_count`. -/
def processClosedIssue (s : ClosedRun) (issue : Issue) : ClosedRun :=
  if issue.closed then
    { s with
      closed_issues_count := s.closed_issues_count + 1,
      contributors := issue.assignees.foldl tallyIncr s.contributors }
  else
    { s with open_issues_count := s.open_issues_count + 1 }

/-- The closed-focus aggregation over a list of issues (the concatenation of
every visited page's `nodes`, in order). -/
def aggregateClosed (issues : List Issue) : ClosedRun :=
  issues.foldl processClosedIssue ClosedRun.init

/-- Mutable state of `query_open_assignment` (open-assignment mode,
lines 99–137): the `contributors` dict and the two counters. -/
structure OpenRun where
  contributors : List (Login × Nat)
  open_issues_count : Nat
  assigned_issues_count : Nat
  deriving Repr, DecidableEq

/-- Initial state of `query_open_assignment`. -/
def OpenRun.init : OpenRun :=
  { contributors := [], open_issues_count := 0, assigned_issues_count := 0 }

/-- Body of `for issue in results['nodes']` in `query_open_assignment`
(lines 110–120): only for an open issue, bump `assigned_issues_count` when
the assignee list is non-empty, tally each assignee, and bump
`open_issues_count`. -/
def processOpenIssue (s : OpenRun) (issue : Issue) : OpenRun :=
  if !issue.closed then
    { s with
      assigned_issues_count :=
        s.assigned_issues_count + (if issue.assignees ≠ [] then 1 else 0),
      contributors := issue.assignees.foldl tallyIncr s.contributors,
      open_issues_count := s.open_issues_count + 1 }
  else
    s

/-- The open-assignment aggregation over a list of issues. -/
def aggregateOpen (issues : List Issue) : OpenRun :=
  issues.foldl processOpenIssue OpenRun.init

/-! ### The paginator (lines 100–128 and 141–171) -/

/-- `'"%s"' % (page_info['endCursor'])` (lines 125 and 168): wrap the raw
`endCursor` as a quoted literal for interpolation into the next query. -/
def quoteCursor (endCursor : String) : String :=
  "\"" ++ endCursor ++ "\""

/-- The pagination loop, run against the finite list of pages the simulated
server answers successive requests with.  `cursor` is the value substituted
for `$cursor` in `ISSUE_QUERY` on the next request.  Returns the list of
cursor values used (one per request, in order) and the list of pages visited
(in order).  The loop body: fetch the page at the current cursor; if its
`pageInfo.hasNextPage` holds, continue with the quoted `endCursor`, else
stop.  An empty page list models a server that never answers: the loop makes
no further progress and the transcript ends. -/
def paginateFrom : String → List Page → List String × List Page
  | _, [] => ([], [])
  | cursor, p :: rest =>
    if p.pageInfo.hasNextPage then
      let next := paginateFrom (quoteCursor p.pageInfo.endCursor) rest
      (cursor :: next.1, p :: next.2)
    else
      ([cursor], [p])

/-- The full pagination transcript: both loops start with `cursor = 'null'`
(lines 100 and 141), the unquoted sentinel. -/
def paginate (pages : List Page) : List String × List Page :=
  paginateFrom "null" pages

/-- A well-formed simulated response sequence: the sequence of pages a server
actually hands to successive requests, so every page before the last reports
`hasNextPage = true` and the last page reports `hasNextPage = false`. -/
def chainPages : List Page → Bool
  | [] => false
  | [p] => !p.pageInfo.hasNextPage
  | p :: q :: rest => p.pageInfo.hasNextPage && chainPages (q :: rest)

/-! ### The reporter (lines 130–137 and 173–181) -/

/-- The comparison `sorted(..., reverse=True)` applies to the `(count, login)`
pairs: `a` comes no later than `b` in the reversed order iff `b ≤ a` in the
lexicographic order on `(Nat, String)` Python compares tuples by. -/
def pairRevLe (a b : Nat × Login) : Bool :=
  decide (b.1 < a.1 ∨ (b.1 = a.1 ∧ b.2 ≤ a.2))

/-- `sorted(((v, k) for k, v in contributors.items()), reverse=True)`
(lines 131 and 174): the dict's `(login, count)` items swapped to
`(count, login)` pairs and sorted in descending lexicographic order. -/
def sortedReport (contributors : List (Login × Nat)) : List (Nat × Login) :=
  (contributors.map (fun p => (p.2, p.1))).mergeSort pairRevLe

/-- The printed ranked lines (lines 130–133 / 173–176): `enumerate` pairs each
sorted entry with its index, and the line prints `i + 1`, the name, and the
count.  Each output triple is `(rank, login, count)`. -/
def reportLines (contributors : List (Login × Nat)) :
    List (Nat × Login × Nat) :=
  (sortedReport contributors).enum.map
    (fun p => (p.1 + 1, p.2.2, p.2.1))

/-! ### The summary percentage lines

The source computes `assigned_issues_count * 100.0 / open_issues_count`
(line 136) and `closed_issues_count * 100.0 / total_num_tests` (line 180)
unconditionally; Python raises `ZeroDivisionError` when the denominator is
zero.  Floats are modelled as exact rationals. -/

/-- The percentage in the summary line of `query_open_assignment`
(lines 134–137). -/
def openSummaryPercentage (s : OpenRun) : Except String ℚ :=
  if s.open_issues_count = 0 then
    .error "ZeroDivisionError"
  else
    .ok ((s.assigned_issues_count * 100 : ℚ) / s.open_issues_count)

/-- The percentage in the summary line of `query_repository_issues`
(lines 177–181), with `total_num_tests = open + closed`. -/
def closedSummaryPercentage (s : ClosedRun) : Except String ℚ :=
  let total_num_tests := s.open_issues_count + s.closed_issues_count
  if total_num_tests = 0 then
    .error "ZeroDivisionError"
  else
    .ok ((s.closed_issues_count * 100 : ℚ) / total_num_tests)

/-! ### The token gate in `main` (lines 213–227) -/

/-- The diagnostic printed at line 218. -/
def tokenDiagnostic : String :=
  "GITHUB_TOKEN needs to be set before running this script"

/-- What `main` does right after `parse_args`, before any query function is
called: either print a diagnostic and exit with a status code, or proceed to
the query phase with the token. -/
inductive TokenGate where
  | exits (message : String) (code : Nat)
  | proceeds (token : String)
  deriving Repr, DecidableEq

/-- Lines 216–219: `token = os.environ.get('GITHUB_TOKEN')`; if it is `None`
or the empty string, print the diagnostic and `sys.exit(1)`; otherwise go on
to the query phase.  The argument is the environment lookup's result. -/
def mainTokenCheck (env : Option String) : TokenGate :=
  match env with
  | none => .exits tokenDiagnostic 1
  | some token =>
    if token = "" then .exits tokenDiagnostic 1 else .proceeds token

/-! ## Helper lemmas about the tally -/

theorem tallyLookup_tallyIncr (c : List (Login × Nat)) (l l' : Login) :
    tallyLookup (tallyIncr c l) l' =
      tallyLookup c l' + (if l' = l then 1 else 0) := by
  unfold tallyIncr tallyLookup
  by_cases hmem : c.any (fun p => p.1 = l) = true
  · simp only [hmem, if_true, List.find?_map]
    have hfst : ∀ q : Login × Nat,
        ((fun p : Login × Nat => if p.1 = l then (p.1, p.2 + 1) else p) q).1 = q.1 := by
      intro q
      by_cases hq : q.1 = l <;> simp [hq]
    have hpred : (fun p : Login × Nat => decide (p.1 = l')) ∘
        (fun p : Login × Nat => if p.1 = l then (p.1, p.2 + 1) else p) =
        fun p : Login × Nat => decide (p.1 = l') := by
      funext q
      simp [Function.comp, hfst q]
    rw [hpred]
    cases hfind : c.find? (fun p : Login × Nat => decide (p.1 = l')) with
    | none =>
      have hne : ¬ (l' = l) := by
        intro he
        subst he
        rw [List.any_eq_true] at hmem
        obtain ⟨p, hp, hpl⟩ := hmem
        rw [List.find?_eq_none] at hfind
        exact absurd hpl (by simpa using hfind p hp)
      simp [hne]
    | some q =>
      have hq : q.1 = l' := by simpa using List.find?_some hfind
      simp only [Option.map_some']
      by_cases hll : l' = l
      · have hql : q.1 = l := by rw [hq]; exact hll
        simp [hql, hll]
      · have : ¬ (q.1 = l) := by rw [hq]; exact hll
        simp [this, hll]
  · simp only [hmem, if_false, List.find?_append]
    cases hfind : c.find? (fun p : Login × Nat => decide (p.1 = l')) with
    | none =>
      by_cases hll : l' = l
      · subst hll
        simp [List.find?, hfind]
      · simp [List.find?, hfind, hll, Ne.symm hll]
    | some q =>
      have hq : q.1 = l' := by simpa using List.find?_some hfind
      have hqmem : q ∈ c := List.mem_of_find?_eq_some hfind
      have hne : ¬ (l' = l) := by
        intro he
        apply hmem
        rw [List.any_eq_true]
        exact ⟨q, hqmem, by simp [hq, he]⟩
      simp [hne, hfind]

theorem tallyLookup_foldl (assignees : List Login) (c : List (Login × Nat))
    (l : Login) :
    tallyLookup (assignees.foldl tallyIncr c) l =
      tallyLookup c l + assignees.count l := by
  induction assignees generalizing c with
  | nil => simp
  | cons a as ih =>
    simp only [List.foldl_cons, ih, tallyLookup_tallyIncr, List.count_cons]
    by_cases hla : l = a
    · simp [hla]
      omega
    · simp [hla, Ne.symm hla]

/-! ## Helper lemmas about the paginator -/

/-- On a well-formed response sequence the pagination loop, started at any
cursor `c`, visits exactly the given pages and uses the cursor sequence
`c, quote (endCursor page 1), quote (endCursor page 2), ...`. -/
theorem paginateFrom_chain (pages : List Page) (hw : chainPages pages = true) :
    ∀ c, paginateFrom c pages =
      (c :: pages.dropLast.map (fun p => quoteCursor p.pageInfo.endCursor),
       pages) := by
  induction pages with
  | nil => simp [chainPages] at hw
  | cons p rest ih =>
    intro c
    cases rest with
    | nil =>
      have hlast : p.pageInfo.hasNextPage = false := by
        simpa [chainPages] using hw
      simp [paginateFrom, hlast]
    | cons q rest2 =>
      have hsplit : p.pageInfo.hasNextPage = true ∧
          chainPages (q :: rest2) = true := by
        simpa [chainPages, Bool.and_eq_true] using hw
      have hrec := ih hsplit.2 (quoteCursor p.pageInfo.endCursor)
      have step : paginateFrom c (p :: q :: rest2) =
          (c :: (paginateFrom (quoteCursor p.pageInfo.endCursor) (q :: rest2)).1,
           p :: (paginateFrom (quoteCursor p.pageInfo.endCursor) (q :: rest2)).2) := by
        simp only [paginateFrom, hsplit.1, if_true]
      rw [step, hrec, List.dropLast_cons₂, List.map_cons]

/-! ## Claim theorems -/

/-- C1: for every sequence of response pages whose last page reports
`hasNextPage = false` (and which is a genuine response sequence, i.e. every
earlier page reports `hasNextPage = true`, since the loop only issues request
N+1 after request N reported another page), the pagination loop visits every
page exactly once in order and terminates; it makes exactly one request per
page; the cursor interpolated into the very first request is the unquoted
`null` sentinel; and the cursor interpolated into request N+1 is exactly the
`endCursor` string returned by request N wrapped as a quoted literal. -/
theorem paginator_visits_pages_in_order_with_quoted_cursors
    (pages : List Page) (hw : chainPages pages = true) :
    (paginate pages).2 = pages ∧
    (paginate pages).1.length = pages.length ∧
    (paginate pages).1.head? = some "null" ∧
    ∀ i : Nat, i + 1 < pages.length →
      (paginate pages).1[i + 1]? =
        (pages[i]?).map (fun p => quoteCursor p.pageInfo.endCursor) := by
  have h := paginateFrom_chain pages hw "null"
  unfold paginate
  rw [h]
  have hne : pages ≠ [] := by
    intro he
    subst he
    simp [chainPages] at hw
  refine ⟨rfl, ?_, rfl, ?_⟩
  · simp only [List.length_cons, List.length_map, List.length_dropLast]
    have : 0 < pages.length := List.length_pos.mpr hne
    omega
  · intro i hi
    rw [List.getElem?_cons_succ, List.getElem?_map, List.getElem?_dropLast,
      if_pos (by omega)]

/-- A two-page response sequence used to instantiate the pagination claim. -/
def demoPages : List Page :=
  [{ nodes := [], pageInfo := { hasNextPage := true, endCursor := "abc" } },
   { nodes := [], pageInfo := { hasNextPage := false, endCursor := "xyz" } }]

/-- Witness for C1 at a concrete two-page sequence: the second request's
cursor is the quoted `endCursor` of the first page. -/
theorem paginator_visits_pages_witness :
    (paginate demoPages).1[0 + 1]? =
      (demoPages[0]?).map (fun p => quoteCursor p.pageInfo.endCursor) :=
  (paginator_visits_pages_in_order_with_quoted_cursors demoPages
    (by decide)).2.2.2 0 (by decide)

/-- The reference issue list of the spec:
`[{closed:true, assignees:[A]}, {closed:false, assignees:[B]},
{closed:true, assignees:[A,B]}]`. -/
def refIssues : List Issue :=
  [{ closed := true, assignees := ["A"] },
   { closed := false, assignees := ["B"] },
   { closed := true, assignees := ["A", "B"] }]

/-- C3: in the historical/closed-focus mode, a closed issue bumps the
closed-issue counter by one and each of its assignees' tallies by one (per
occurrence), while an open issue bumps only the open-issue counter and leaves
the tally untouched; and on the reference input the run yields tally
`A ↦ 2, B ↦ 1`, `closed_issues_count = 2`, `open_issues_count = 1`, and
reported percentage `2/3 × 100`. -/
theorem closed_mode_aggregation_spec :
    (∀ (s : ClosedRun) (issue : Issue), issue.closed = true →
      (processClosedIssue s issue).closed_issues_count =
        s.closed_issues_count + 1 ∧
      (processClosedIssue s issue).open_issues_count = s.open_issues_count ∧
      ∀ login, tallyLookup (processClosedIssue s issue).contributors login =
        tallyLookup s.contributors login + issue.assignees.count login) ∧
    (∀ (s : ClosedRun) (issue : Issue), issue.closed = false →
      (processClosedIssue s issue).open_issues_count =
        s.open_issues_count + 1 ∧
      (processClosedIssue s issue).closed_issues_count =
        s.closed_issues_count ∧
      (processClosedIssue s issue).contributors = s.contributors) ∧
    aggregateClosed refIssues =
      { contributors := [("A", 2), ("B", 1)],
        open_issues_count := 1, closed_issues_count := 2 } ∧
    closedSummaryPercentage (aggregateClosed refIssues) =
      .ok ((2 : ℚ) / 3 * 100) := by
  have hagg : aggregateClosed refIssues =
      { contributors := [("A", 2), ("B", 1)],
        open_issues_count := 1, closed_issues_count := 2 } := by decide
  refine ⟨?_, ?_, hagg, ?_⟩
  · intro s issue hc
    refine ⟨by simp [processClosedIssue, hc], by simp [processClosedIssue, hc],
      fun login => ?_⟩
    simp [processClosedIssue, hc, tallyLookup_foldl]
  · intro s issue hc
    simp [processClosedIssue, hc]
  · rw [hagg]
    simp only [closedSummaryPercentage]
    norm_num

/-- Witness for C3: the first reference issue is closed, so processing it from
the initial state bumps the closed counter to 1. -/
theorem closed_mode_aggregation_witness :
    (processClosedIssue ClosedRun.init
      { closed := true, assignees := ["A"] }).closed_issues_count =
      ClosedRun.init.closed_issues_count + 1 :=
  (closed_mode_aggregation_spec.1 ClosedRun.init
    { closed := true, assignees := ["A"] } rfl).1

/-- C4: in open-assignment mode, an open issue bumps the open-issue counter by
one, bumps the assigned-issue counter by exactly one iff it has at least one
assignee (regardless of how many), and bumps each assignee's tally; a closed
issue leaves the state completely unchanged; and on the reference input
`assigned_issues_count = 1`, `open_issues_count = 1`, and the reported
percentage is 100. -/
theorem open_mode_aggregation_spec :
    (∀ (s : OpenRun) (issue : Issue), issue.closed = false →
      (processOpenIssue s issue).open_issues_count =
        s.open_issues_count + 1 ∧
      (processOpenIssue s issue).assigned_issues_count =
        s.assigned_issues_count + (if issue.assignees = [] then 0 else 1) ∧
      ∀ login, tallyLookup (processOpenIssue s issue).contributors login =
        tallyLookup s.contributors login + issue.assignees.count login) ∧
    (∀ (s : OpenRun) (issue : Issue), issue.closed = true →
      processOpenIssue s issue = s) ∧
    aggregateOpen refIssues =
      { contributors := [("B", 1)],
        open_issues_count := 1, assigned_issues_count := 1 } ∧
    openSummaryPercentage (aggregateOpen refIssues) = .ok 100 := by
  have hagg : aggregateOpen refIssues =
      { contributors := [("B", 1)],
        open_issues_count := 1, assigned_issues_count := 1 } := by decide
  refine ⟨?_, ?_, hagg, ?_⟩
  · intro s issue hc
    refine ⟨by simp [processOpenIssue, hc], ?_, fun login => ?_⟩
    · by_cases hass : issue.assignees = [] <;>
        simp [processOpenIssue, hc, hass]
    · simp [processOpenIssue, hc, tallyLookup_foldl]
  · intro s issue hc
    simp [processOpenIssue, hc]
  · rw [hagg]
    simp only [openSummaryPercentage]
    norm_num

/-- Witness for C4: processing the open reference issue from the initial state
bumps the assigned counter by exactly one. -/
theorem open_mode_aggregation_witness :
    (processOpenIssue OpenRun.init
      { closed := false, assignees := ["B"] }).assigned_issues_count =
      OpenRun.init.assigned_issues_count +
        (if ({ closed := false, assignees := ["B"] } : Issue).assignees = []
         then 0 else 1) :=
  (open_mode_aggregation_spec.1 OpenRun.init
    { closed := false, assignees := ["B"] } rfl).2.1

/-- C8: in both aggregation modes, processing an issue with zero assignees
leaves the contributor tally association list literally unchanged — no key is
added and no count is modified. -/
theorem zero_assignees_leave_tally_unchanged
    (sc : ClosedRun) (so : OpenRun) (issue : Issue)
    (h : issue.assignees = []) :
    (processClosedIssue sc issue).contributors = sc.contributors ∧
    (processOpenIssue so issue).contributors = so.contributors := by
  constructor
  · unfold processClosedIssue
    cases hc : issue.closed <;> simp [h]
  · unfold processOpenIssue
    cases hc : issue.closed <;> simp [h]

/-- Witness for C8: a closed and an open run state are both untouched by an
assignee-less issue. -/
theorem zero_assignees_leave_tally_unchanged_witness :
    (processClosedIssue ClosedRun.init
      { closed := true, assignees := [] }).contributors =
      ClosedRun.init.contributors ∧
    (processOpenIssue OpenRun.init
      { closed := false, assignees := [] }).contributors =
      OpenRun.init.contributors :=
  ⟨(zero_assignees_leave_tally_unchanged ClosedRun.init OpenRun.init
      { closed := true, assignees := [] } rfl).1,
   (zero_assignees_leave_tally_unchanged ClosedRun.init OpenRun.init
      { closed := false, assignees := [] } rfl).2⟩

/-- C2: the query executor returns only on an HTTP 200 response — every
attempt before the returning one was a retried failure — and then it returns
that response's parsed body; a non-200 response makes it log the status code,
sleep 60 seconds, and retry; a recognized transient transport fault makes it
log a warning, sleep 10 seconds, and retry; and there is no retry limit: on a
sequence consisting solely of failures, however long, the loop is still
retrying rather than giving up. -/
theorem graphql_query_retry_spec (α : Type) :
    (∀ (attempts : List (Attempt α)) (body : α) (evs : List Event),
      graphql_query attempts = (.returns body, evs) →
      ∃ pre r rest, attempts = pre ++ .responds r :: rest ∧
        r.status_code = 200 ∧ r.body = body ∧ ∀ a ∈ pre, retriable a) ∧
    (∀ (e : ExnKind) (rest : List (Attempt α)),
      recognizedTransient e = true →
      graphql_query (.raises e :: rest) =
        ((graphql_query rest).1,
         .logFailedHttp :: .sleepSeconds 10 :: (graphql_query rest).2)) ∧
    (∀ (r : HttpResponse α) (rest : List (Attempt α)),
      r.status_code ≠ 200 →
      graphql_query (.responds r :: rest) =
        ((graphql_query rest).1,
         .logStatusCode r.status_code :: .sleepSeconds 60 ::
           (graphql_query rest).2)) ∧
    (∀ (r : HttpResponse α) (rest : List (Attempt α)),
      r.status_code = 200 →
      graphql_query (.responds r :: rest) = (.returns r.body, [])) ∧
    (∀ attempts : List (Attempt α), (∀ a ∈ attempts, retriable a) →
      (graphql_query attempts).1 = .stillRetrying) := by
  refine ⟨?_, ?_, ?_, ?_, ?_⟩
  · intro attempts
    induction attempts with
    | nil =>
      intro body evs h
      simp [graphql_query] at h
    | cons a rest ih =>
      intro body evs h
      cases a with
      | raises e =>
        by_cases hrec : recognizedTransient e = true
        · simp only [graphql_query] at h
          rw [if_pos hrec] at h
          simp only [Prod.mk.injEq] at h
          have hrest : graphql_query rest =
              (.returns body, (graphql_query rest).2) := by
            rw [← h.1]
          obtain ⟨pre, r, rrest, heq, h200, hbody, hall⟩ :=
            ih body (graphql_query rest).2 hrest
          refine ⟨.raises e :: pre, r, rrest, by rw [heq]; rfl, h200, hbody, ?_⟩
          intro a ha
          rcases List.mem_cons.mp ha with rfl | ha
          · exact hrec
          · exact hall a ha
        · simp only [graphql_query] at h
          rw [if_neg hrec] at h
          simp at h
      | responds r =>
        by_cases h200 : r.status_code = 200
        · simp only [graphql_query] at h
          rw [if_neg (by simp [h200])] at h
          simp only [Prod.mk.injEq, QueryOutcome.returns.injEq] at h
          exact ⟨[], r, rest, rfl, h200, h.1, by simp⟩
        · simp only [graphql_query] at h
          rw [if_pos h200] at h
          simp only [Prod.mk.injEq] at h
          have hrest : graphql_query rest =
              (.returns body, (graphql_query rest).2) := by
            rw [← h.1]
          obtain ⟨pre, rr, rrest, heq, hrr, hbody, hall⟩ :=
            ih body (graphql_query rest).2 hrest
          refine ⟨.responds r :: pre, rr, rrest, by rw [heq]; rfl, hrr, hbody, ?_⟩
          intro a ha
          rcases List.mem_cons.mp ha with rfl | ha
          · exact h200
          · exact hall a ha
  · intro e rest hrec
    simp [graphql_query, hrec]
  · intro r rest h200
    simp [graphql_query, h200]
  · intro r rest h200
    have : ¬ (r.status_code ≠ 200) := by simp [h200]
    simp [graphql_query, this]
  · intro attempts
    induction attempts with
    | nil =>
      intro _
      simp [graphql_query]
    | cons a rest ih =>
      intro h
      have ha := h a (List.mem_cons_self a rest)
      have hrest := ih (fun x hx => h x (List.mem_cons_of_mem _ hx))
      cases a with
      | raises e =>
        have : recognizedTransient e = true := ha
        simp [graphql_query, this, hrest]
      | responds r =>
        have : r.status_code ≠ 200 := ha
        simp [graphql_query, this, hrest]

/-- Witness for C2: a lone 500 response leaves the executor still retrying
(no-retry-limit conjunct applied at a concrete attempt list). -/
theorem graphql_query_retry_witness :
    (graphql_query [Attempt.responds ⟨500, (0 : Nat)⟩]).1 =
      QueryOutcome.stillRetrying :=
  (graphql_query_retry_spec Nat).2.2.2.2
    [Attempt.responds ⟨500, (0 : Nat)⟩]
    (by intro a ha
        rcases List.mem_cons.mp ha with rfl | ha
        · exact (by decide : (500 : Nat) ≠ 200)
        · simp at ha)

/-- C7: the only way the query executor terminates without returning a parsed
response is a transport exception outside the recognized transient-fault set
(exactly ValueError, InvalidChunkLength, ProtocolError,
ChunkedEncodingError): whenever the outcome is a propagated exception, that
exception was unrecognized and every attempt before it was retried; and
conversely any unrecognized exception reached after retriable attempts
propagates out of the executor (and hence terminates the whole run: no caller
in the source catches it). -/
theorem graphql_query_fatal_exception_spec (α : Type) :
    (∀ (attempts : List (Attempt α)) (e : ExnKind) (evs : List Event),
      graphql_query attempts = (.propagates e, evs) →
      recognizedTransient e = false ∧
      ∃ pre rest, attempts = pre ++ .raises e :: rest ∧
        ∀ a ∈ pre, retriable a) ∧
    (∀ (pre : List (Attempt α)) (e : ExnKind) (rest : List (Attempt α)),
      (∀ a ∈ pre, retriable a) → recognizedTransient e = false →
      (graphql_query (pre ++ .raises e :: rest)).1 = .propagates e) ∧
    (recognizedTransient .valueError = true ∧
     recognizedTransient .invalidChunkLength = true ∧
     recognizedTransient .protocolError = true ∧
     recognizedTransient .chunkedEncodingError = true ∧
     ∀ e : ExnKind, recognizedTransient e = false ↔ e = .otherExn) := by
  refine ⟨?_, ?_, ?_⟩
  · intro attempts
    induction attempts with
    | nil =>
      intro e evs h
      simp [graphql_query] at h
    | cons a rest ih =>
      intro e evs h
      cases a with
      | raises e2 =>
        by_cases hrec : recognizedTransient e2 = true
        · simp only [graphql_query] at h
          rw [if_pos hrec] at h
          simp only [Prod.mk.injEq] at h
          have hrest : graphql_query rest =
              (.propagates e, (graphql_query rest).2) := by
            rw [← h.1]
          obtain ⟨hne, pre, rrest, heq, hall⟩ :=
            ih e (graphql_query rest).2 hrest
          refine ⟨hne, .raises e2 :: pre, rrest, by rw [heq]; rfl, ?_⟩
          intro a ha
          rcases List.mem_cons.mp ha with rfl | ha
          · exact hrec
          · exact hall a ha
        · simp only [graphql_query] at h
          rw [if_neg hrec] at h
          simp only [Prod.mk.injEq, QueryOutcome.propagates.injEq] at h
          refine ⟨?_, [], rest, by simp [h.1], by simp⟩
          rw [← h.1]
          simpa using hrec
      | responds r =>
        by_cases h200 : r.status_code = 200
        · simp only [graphql_query] at h
          rw [if_neg (by simp [h200])] at h
          simp at h
        · simp only [graphql_query] at h
          rw [if_pos h200] at h
          simp only [Prod.mk.injEq] at h
          have hrest : graphql_query rest =
              (.propagates e, (graphql_query rest).2) := by
            rw [← h.1]
          obtain ⟨hne, pre, rrest, heq, hall⟩ :=
            ih e (graphql_query rest).2 hrest
          refine ⟨hne, .responds r :: pre, rrest, by rw [heq]; rfl, ?_⟩
          intro a ha
          rcases List.mem_cons.mp ha with rfl | ha
          · exact h200
          · exact hall a ha
  · intro pre
    induction pre with
    | nil =>
      intro e rest _ hfatal
      have : recognizedTransient e = true → False := by simp [hfatal]
      simp only [List.nil_append, graphql_query]
      rw [if_neg this]
    | cons a pre2 ih =>
      intro e rest h hfatal
      have ha := h a (List.mem_cons_self a pre2)
      have hpre2 := ih e rest (fun x hx => h x (List.mem_cons_of_mem _ hx)) hfatal
      cases a with
      | raises e2 =>
        have : recognizedTransient e2 = true := ha
        simp [graphql_query, this, hpre2]
      | responds r =>
        have : r.status_code ≠ 200 := ha
        simp [graphql_query, this, hpre2]
  · refine ⟨rfl, rfl, rfl, rfl, ?_⟩
    intro e
    cases e <;> simp [recognizedTransient]

/-- Witness for C7: an unrecognized exception after one retried 500 response
propagates out of the executor. -/
theorem graphql_query_fatal_exception_witness :
    (graphql_query ([Attempt.responds ⟨500, (0 : Nat)⟩] ++
      Attempt.raises ExnKind.otherExn :: [])).1 =
      QueryOutcome.propagates ExnKind.otherExn :=
  (graphql_query_fatal_exception_spec Nat).2.1
    [Attempt.responds ⟨500, (0 : Nat)⟩] ExnKind.otherExn []
    (by intro a ha
        rcases List.mem_cons.mp ha with rfl | ha
        · exact (by decide : (500 : Nat) ≠ 200)
        · simp at ha)
    rfl

/-- C9: if the `GITHUB_TOKEN` environment variable is unset or equal to the
empty string, `main` prints the diagnostic and exits with status 1 — a
non-zero status — before the query phase (in the source the check at lines
216–219 precedes every call of `query_open_assignment` /
`query_repository_issues`, hence every network request); with any other
token value it proceeds to the query phase with that token. -/
theorem main_token_gate_spec :
    (∀ env : Option String, env = none ∨ env = some "" →
      mainTokenCheck env = .exits tokenDiagnostic 1) ∧
    (∀ (env : Option String) (msg : String) (code : Nat),
      mainTokenCheck env = .exits msg code → code ≠ 0) ∧
    (∀ t : String, t ≠ "" → mainTokenCheck (some t) = .proceeds t) := by
  refine ⟨?_, ?_, ?_⟩
  · rintro env (rfl | rfl) <;> simp [mainTokenCheck]
  · intro env msg code h
    cases env with
    | none =>
      simp only [mainTokenCheck, TokenGate.exits.injEq] at h
      omega
    | some t =>
      by_cases ht : t = ""
      · simp only [mainTokenCheck, ht, if_true, TokenGate.exits.injEq] at h
        omega
      · simp [mainTokenCheck, ht] at h
  · intro t ht
    simp [mainTokenCheck, ht]

/-- Witness for C9: with the variable unset the gate exits with status 1. -/
theorem main_token_gate_witness :
    mainTokenCheck none = .exits tokenDiagnostic 1 :=
  main_token_gate_spec.1 none (Or.inl rfl)

/-- C5 is false on the code: both summary percentages are computed
unconditionally (lines 134–137 and 178–181), so a run that accumulated zero
issues — zero open issues in open-assignment mode, zero total issues in
closed-focus mode — reaches the division with a zero denominator and faults
with Python's `ZeroDivisionError` instead of guarding it.  (The spec itself
flags this as a latent defect of the original: the claim describes the
intended behavior, the code the defective one.) -/
theorem summary_percentage_zero_issues_faults :
    aggregateClosed [] = ClosedRun.init ∧
    aggregateOpen [] = OpenRun.init ∧
    closedSummaryPercentage (aggregateClosed []) =
      .error "ZeroDivisionError" ∧
    openSummaryPercentage (aggregateOpen []) = .error "ZeroDivisionError" :=
  ⟨rfl, rfl, rfl, rfl⟩

/-! ## Helper lemmas about the report sort -/

theorem pairRevLe_trans (a b c : Nat × Login) :
    pairRevLe a b = true → pairRevLe b c = true → pairRevLe a c = true := by
  simp only [pairRevLe, decide_eq_true_eq]
  rintro (hab | ⟨hab1, hab2⟩) (hbc | ⟨hbc1, hbc2⟩)
  · exact Or.inl (lt_trans hbc hab)
  · exact Or.inl (by omega)
  · exact Or.inl (by omega)
  · exact Or.inr ⟨by omega, le_trans hbc2 hab2⟩

theorem pairRevLe_total (a b : Nat × Login) :
    (pairRevLe a b || pairRevLe b a) = true := by
  simp only [pairRevLe, Bool.or_eq_true, decide_eq_true_eq]
  rcases Nat.lt_trichotomy b.1 a.1 with h | h | h
  · exact Or.inl (Or.inl h)
  · rcases le_total b.2 a.2 with h2 | h2
    · exact Or.inl (Or.inr ⟨h, h2⟩)
    · exact Or.inr (Or.inr ⟨h.symm, h2⟩)
  · exact Or.inr (Or.inl h)

theorem pairRevLe_antisymm (a b : Nat × Login) :
    pairRevLe a b = true → pairRevLe b a = true → a = b := by
  simp only [pairRevLe, decide_eq_true_eq]
  rintro (hab | ⟨hab1, hab2⟩) (hba | ⟨hba1, hba2⟩)
  · omega
  · omega
  · omega
  · exact Prod.ext hba1 (le_antisymm hba2 hab2)

/-- The sorted report is pairwise ordered by the reversed lexicographic
comparison. -/
theorem sortedReport_pairwise (c : List (Login × Nat)) :
    (sortedReport c).Pairwise (fun a b => pairRevLe a b = true) := by
  unfold sortedReport
  exact List.sorted_mergeSort pairRevLe_trans pairRevLe_total
    (c.map (fun p => (p.2, p.1)))

/-- The sorted report is a permutation of the swapped tally entries. -/
theorem sortedReport_perm (c : List (Login × Nat)) :
    (sortedReport c).Perm (c.map (fun p => (p.2, p.1))) := by
  unfold sortedReport
  exact List.mergeSort_perm (c.map (fun p => (p.2, p.1))) pairRevLe

/-- C6: in the printed contributor report, counts are non-increasing along
the printed order — every entry with a strictly greater count precedes every
entry with a strictly lesser count — and the printed entries are numbered
consecutively starting at 1 (entry at position `i` carries number `i + 1`).
Report triples are `(rank, login, count)`. -/
theorem report_sorted_descending_and_numbered
    (contributors : List (Login × Nat)) :
    (∀ (i j : Nat) (hi : i < (reportLines contributors).length)
       (hj : j < (reportLines contributors).length), i < j →
       ((reportLines contributors).get ⟨j, hj⟩).2.2 ≤
         ((reportLines contributors).get ⟨i, hi⟩).2.2) ∧
    (∀ (i : Nat) (hi : i < (reportLines contributors).length),
       ((reportLines contributors).get ⟨i, hi⟩).1 = i + 1) := by
  constructor
  · intro i j hi hj hij
    have hi2 : i < (sortedReport contributors).length := by
      simpa [reportLines] using hi
    have hj2 : j < (sortedReport contributors).length := by
      simpa [reportLines] using hj
    have hpw := sortedReport_pairwise contributors
    rw [List.pairwise_iff_getElem] at hpw
    have hle := hpw i j hi2 hj2 hij
    simp only [pairRevLe, decide_eq_true_eq] at hle
    simp only [List.get_eq_getElem, reportLines, List.getElem_map,
      List.getElem_enum]
    rcases hle with h | ⟨h1, _⟩
    · exact le_of_lt h
    · exact le_of_eq h1
  · intro i hi
    simp only [List.get_eq_getElem, reportLines, List.getElem_map,
      List.getElem_enum]

/-- A small concrete tally used to instantiate the report claims. -/
def demoTally : List (Login × Nat) := [("A", 1), ("B", 2)]

/-- Witness for C6: the first printed line of the demo report carries
number 1. -/
theorem report_sorted_descending_and_numbered_witness :
    ((reportLines demoTally).get
      ⟨0, by simp [reportLines, sortedReport, demoTally]⟩).1 = 0 + 1 :=
  (report_sorted_descending_and_numbered demoTally).2 0
    (by simp [reportLines, sortedReport, demoTally])

/-- C10: the printed report is a deterministic function of the finalized
tally map: among entries with equal counts the logins appear in strictly
descending lexicographic order (the dict's keys are distinct, modelled by the
`Nodup` hypothesis on the keys), and any two tallies that are permutations of
each other — i.e. equal as maps — print the identical ranked list. -/
theorem report_deterministic_and_ties_descending :
    (∀ (c : List (Login × Nat)) (i j : Nat)
       (hi : i < (sortedReport c).length)
       (hj : j < (sortedReport c).length),
       (c.map Prod.fst).Nodup → i < j →
       ((sortedReport c).get ⟨i, hi⟩).1 = ((sortedReport c).get ⟨j, hj⟩).1 →
       ((sortedReport c).get ⟨j, hj⟩).2 < ((sortedReport c).get ⟨i, hi⟩).2) ∧
    (∀ c1 c2 : List (Login × Nat), c1.Perm c2 →
       reportLines c1 = reportLines c2) := by
  constructor
  · intro c i j hi hj hnd hij hcnt
    have hpw := sortedReport_pairwise c
    rw [List.pairwise_iff_getElem] at hpw
    have hle := hpw i j hi hj hij
    simp only [pairRevLe, decide_eq_true_eq] at hle
    have hndpairs : (sortedReport c).Nodup := by
      have h1 : c.Nodup := hnd.of_map
      have h2 : (c.map (fun p => (p.2, p.1))).Nodup := by
        refine h1.map ?_
        intro p q hpq
        cases p
        cases q
        simpa [Prod.ext_iff, and_comm] using hpq
      exact ((sortedReport_perm c).nodup_iff).mpr h2
    have hne : (sortedReport c).get ⟨i, hi⟩ ≠ (sortedReport c).get ⟨j, hj⟩ := by
      rw [Ne, hndpairs.get_inj_iff]
      intro hfin
      have : i = j := congrArg Fin.val hfin
      omega
    simp only [List.get_eq_getElem] at hne hcnt ⊢
    rcases hle with h | ⟨h1, h2⟩
    · rw [hcnt] at h
      exact absurd h (lt_irrefl _)
    · refine lt_of_le_of_ne h2 ?_
      intro heq
      exact hne (Prod.ext hcnt (heq.symm))
  · intro c1 c2 hperm
    have hp : (sortedReport c1).Perm (sortedReport c2) :=
      ((sortedReport_perm c1).trans
        (hperm.map (fun p => (p.2, p.1)))).trans (sortedReport_perm c2).symm
    have heq : sortedReport c1 = sortedReport c2 :=
      @List.eq_of_perm_of_sorted (Nat × Login)
        (fun a b => pairRevLe a b = true) ⟨pairRevLe_antisymm⟩ _ _
        hp (sortedReport_pairwise c1) (sortedReport_pairwise c2)
    unfold reportLines
    rw [heq]

/-- Witness for C10: two permuted tallies print the identical report. -/
theorem report_deterministic_witness :
    reportLines [("A", 1), ("B", 2)] = reportLines [("B", 2), ("A", 1)] :=
  report_deterministic_and_ties_descending.2
    [("A", 1), ("B", 2)] [("B", 2), ("A", 1)]
    (List.Perm.swap ("B", 2) ("A", 1) [])

end Ros2TestCasesStats
